import Mathlib

/-!
Verification of the `moondream-node-jimp` client against its design document.

The development shallowly embeds `src/moondream.ts`:

* the server-sent-event style stream decoder `streamResponse` (lines 116-161),
  modelled as a pure function from the list of byte chunks delivered by the
  HTTP response to the list of emitted fragments plus a termination outcome;
* the constructor of class `vl` (lines 28-36);
* the image normalizer `encodeImage` (lines 38-68), with the external Jimp
  codec as an abstract parameter;
* the response shaping of `query` (lines 214-218).

JS strings are modelled as `List Char`; byte buffers as `List Nat` with
entries below 256.  `JSON.parse` is a JS builtin external to the repository,
so the decoder is parameterised by an oracle `ParseFn` describing the outcome
of parsing one frame; a concrete executable instance `jsonFrameParse`
(restricted to the flat frame objects of the wire protocol) is supplied for
evaluating the theorems on concrete inputs.
-/

namespace Moondream

/-- One decoded JSON frame of the streaming wire protocol, as the generator in
`streamResponse` observes it after `JSON.parse` and the subsequent
`'chunk' in data` membership test and `data.completed` truthiness test:
an optional text fragment and the (truthiness of the) completion flag. -/
structure Frame where
  chunk : Option (List Char)
  completed : Bool
deriving DecidableEq

/-- Abstraction of the external JS builtin `JSON.parse` applied to the text
after the `data: ` marker, combined with the `'chunk' in data` test and the
truthiness of `data.completed`.  `none` models the case where the `try` block
of lines 127-137 throws (malformed JSON, or a primitive on which the `in`
operator faults). -/
abbrev ParseFn := List Char → Option Frame

/-- Model of JS `String.prototype.split('\n')` on `List Char`: the list of
segments between newline characters, always non-empty, with the (possibly
empty) trailing segment last. -/
def splitNl : List Char → List (List Char)
  | [] => [[]]
  | c :: cs =>
    if c = '\n' then [] :: splitNl cs
    else
      match splitNl cs with
      | [] => [[c]]
      | l :: ls => (c :: l) :: ls

/-- The `data: ` marker checked by `line.startsWith('data: ')` on line 126. -/
def dataTag : List Char := ['d', 'a', 't', 'a', ':', ' ']

/-- The fragments yielded for one parsed frame: `data.chunk` when the
`'chunk' in data` test succeeds, nothing otherwise (lines 129-131). -/
def frameFrags (f : Frame) : List (List Char) :=
  match f.chunk with
  | some c => [c]
  | none => []

/-- How the generator terminated. -/
inductive Outcome where
  /-- returned because a frame carried a truthy `completed` flag (line 133) -/
  | completed
  /-- the input was exhausted and the generator ran off its end -/
  | eos
  /-- the generator threw while handling a `data: ` line (lines 135-137) -/
  | parseError
deriving DecidableEq

/-- Result of processing a batch of complete lines: either the loop fell
through to the next chunk having yielded `fs`, or the generator terminated. -/
inductive StepRes where
  | next (fs : List (List Char))
  | term (fs : List (List Char)) (o : Outcome)
deriving DecidableEq

/-- The inner `for (const line of lines)` loop of lines 125-139: each
`data: ` line is parsed, its fragment (if any) is yielded, a truthy
`completed` flag returns from the generator, and a parse failure throws. -/
def processLines (p : ParseFn) : List (List Char) → StepRes
  | [] => .next []
  | line :: rest =>
    if dataTag.isPrefixOf line then
      match p (line.drop 6) with
      | none => .term [] .parseError
      | some data =>
        if data.completed then .term (frameFrags data) .completed
        else
          match processLines p rest with
          | .next fs => .next (frameFrags data ++ fs)
          | .term fs o => .term (frameFrags data ++ fs) o
    else processLines p rest

/-- The flush loop of lines 145-156 run after the source is exhausted: the
same as `processLines` except that the `completed` flag is not consulted, so
only a parse failure can cut the loop short. -/
def flushLines (p : ParseFn) : List (List Char) → StepRes
  | [] => .next []
  | line :: rest =>
    if dataTag.isPrefixOf line then
      match p (line.drop 6) with
      | none => .term [] .parseError
      | some data =>
        match flushLines p rest with
        | .next fs => .next (frameFrags data ++ fs)
        | .term fs o => .term (frameFrags data ++ fs) o
    else flushLines p rest

/-- The observable behaviour of one run of the generator: the fragments
yielded, in order, and how the run ended. -/
structure DecodeResult where
  fragments : List (List Char)
  outcome : Outcome
deriving DecidableEq

/-- Lines 142-157: `if (buffer)` flush any residual text as one more batch of
lines, then finish. -/
def finishFlush (p : ParseFn) (buffer : List Char) : DecodeResult :=
  if buffer = [] then ⟨[], .eos⟩
  else
    match flushLines p (splitNl buffer) with
    | .next fs => ⟨fs, .eos⟩
    | .term fs o => ⟨fs, o⟩

/-- The chunk loop of lines 120-140 with the flush of lines 142-157: append
the chunk to the accumulator, split on newlines, keep the last segment
(`lines.pop() || ''`) as the new accumulator and process the complete lines. -/
def streamLoop (p : ParseFn) : List (List Char) → List Char → DecodeResult
  | [], buffer => finishFlush p buffer
  | chunk :: rest, buffer =>
    let lines := splitNl (buffer ++ chunk)
    match processLines p lines.dropLast with
    | .term fs o => ⟨fs, o⟩
    | .next fs =>
      let r := streamLoop p rest (lines.getLastD [])
      ⟨fs ++ r.fragments, r.outcome⟩

/-- `streamResponse` on a stream already decoded to text chunks: the whole
generator of lines 116-161, starting from the empty accumulator. -/
def streamResponseText (p : ParseFn) (chunks : List (List Char)) : DecodeResult :=
  streamLoop p chunks []

/-!
Model of `Buffer.prototype.toString('utf8')`, the decoding applied to each
incoming network chunk separately on line 121, as the WHATWG UTF-8 decoder
that Node implements: a byte-at-a-time state machine that replaces every
maximal invalid subpart with U+FFFD.
-/

/-- Decoder state: how many continuation bytes are still expected, the
code point collected so far, and the bounds the next byte must satisfy. -/
structure Utf8State where
  needed : Nat
  cp : Nat
  lo : Nat
  hi : Nat
deriving DecidableEq

/-- The ground state, expecting a lead byte. -/
def utf8Ground : Utf8State := ⟨0, 0, 0, 0⟩

/-- Consume one byte from the ground state. -/
def utf8Lead (b : Nat) : List Char × Utf8State :=
  if b < 0x80 then ([Char.ofNat b], utf8Ground)
  else if b < 0xC2 then ([Char.ofNat 0xFFFD], utf8Ground)
  else if b < 0xE0 then ([], ⟨1, b - 0xC0, 0x80, 0xBF⟩)
  else if b < 0xF0 then
    ([], ⟨2, b - 0xE0, if b = 0xE0 then 0xA0 else 0x80, if b = 0xED then 0x9F else 0xBF⟩)
  else if b < 0xF5 then
    ([], ⟨3, b - 0xF0, if b = 0xF0 then 0x90 else 0x80, if b = 0xF4 then 0x8F else 0xBF⟩)
  else ([Char.ofNat 0xFFFD], utf8Ground)

/-- Consume one byte: continuation bytes extend the pending code point; an
out-of-range byte emits U+FFFD and is reconsumed as a lead byte. -/
def utf8Step (st : Utf8State) (b : Nat) : List Char × Utf8State :=
  if st.needed = 0 then utf8Lead b
  else if st.lo ≤ b ∧ b ≤ st.hi then
    let cp := st.cp * 64 + (b - 0x80)
    if st.needed = 1 then ([Char.ofNat cp], utf8Ground)
    else ([], ⟨st.needed - 1, cp, 0x80, 0xBF⟩)
  else
    (Char.ofNat 0xFFFD :: (utf8Lead b).1, (utf8Lead b).2)

/-- Run the decoder; leftover expected bytes at the end give one U+FFFD. -/
def utf8Run (st : Utf8State) : List Nat → List Char
  | [] => if st.needed = 0 then [] else [Char.ofNat 0xFFFD]
  | b :: bs => (utf8Step st b).1 ++ utf8Run (utf8Step st b).2 bs

/-- `Buffer.prototype.toString('utf8')` of one chunk. -/
def utf8Decode (l : List Nat) : List Char := utf8Run utf8Ground l

/-- UTF-8 encoding of one scalar value. -/
def utf8EncodeChar (c : Char) : List Nat :=
  let n := c.toNat
  if n < 0x80 then [n]
  else if n < 0x800 then [0xC0 + n / 64, 0x80 + n % 64]
  else if n < 0x10000 then [0xE0 + n / 4096, 0x80 + n / 64 % 64, 0x80 + n % 64]
  else [0xF0 + n / 262144, 0x80 + n / 4096 % 64, 0x80 + n / 64 % 64, 0x80 + n % 64]

/-- UTF-8 encoding of a string. -/
def utf8EncodeStr (s : List Char) : List Nat :=
  (s.map utf8EncodeChar).flatten

/-- The stream decoder `streamResponse` (lines 116-161) as observed from the
wire: the HTTP response delivers a list of byte chunks, each converted to text
by `chunk.toString()` (line 121) and fed through the accumulator loop. -/
def streamResponse (p : ParseFn) (chunks : List (List Nat)) : DecodeResult :=
  streamResponseText p (chunks.map utf8Decode)

/-! ### A concrete frame parser

`JSON.parse` is a JS builtin, external to this repository.  To evaluate the
decoder on concrete protocol inputs we model it for the fragment actually
spoken by the wire protocol: a single flat object whose values are strings
(without escape sequences), booleans, `null` or integers, with the `chunk`
member, when present, bound to a string.  Inputs outside this fragment are
rejected; all theorems that quantify over the parse outcome do so through the
abstract `ParseFn`, so this instance is used only to instantiate them. -/

/-- Opening brace character. -/
def lbrace : Char := Char.ofNat 123

/-- Closing brace character. -/
def rbrace : Char := Char.ofNat 125

/-- One primitive JSON value of the modelled fragment. -/
inductive JsonPrim where
  | str (s : List Char)
  | bool (b : Bool)
  | null
  | num (n : Int)
deriving DecidableEq

/-- JSON whitespace. -/
def isJsonWs (c : Char) : Bool :=
  c = ' ' || c = '\t' || c = '\n' || c = '\r'

/-- Skip leading JSON whitespace. -/
def skipWs : List Char → List Char
  | [] => []
  | c :: cs => if isJsonWs c then skipWs cs else c :: cs

/-- Parse the body of a JSON string after the opening quote; rejects escape
sequences.  Returns the content and the input after the closing quote. -/
def parseStrBody : List Char → Option (List Char × List Char)
  | [] => none
  | c :: cs =>
    if c = '"' then some ([], cs)
    else if c = '\\' then none
    else (parseStrBody cs).map (fun r => (c :: r.1, r.2))

/-- Parse a run of decimal digits. -/
def parseDigits : List Char → Nat → Option (Nat × List Char)
  | [], _ => none
  | c :: cs, acc =>
    if c.isDigit then
      match parseDigits cs (acc * 10 + (c.toNat - 48)) with
      | some r => some r
      | none => some (acc * 10 + (c.toNat - 48), cs)
    else none

/-- Parse one primitive value of the modelled fragment. -/
def parsePrim (s : List Char) : Option (JsonPrim × List Char) :=
  match s with
  | [] => none
  | c :: cs =>
    if c = '"' then (parseStrBody cs).map (fun r => (.str r.1, r.2))
    else if List.isPrefixOf ['t', 'r', 'u', 'e'] s then some (.bool true, s.drop 4)
    else if List.isPrefixOf ['f', 'a', 'l', 's', 'e'] s then some (.bool false, s.drop 5)
    else if List.isPrefixOf ['n', 'u', 'l', 'l'] s then some (.null, s.drop 4)
    else if c = '-' then (parseDigits cs 0).map (fun r => (.num (-(r.1 : Int)), r.2))
    else if c.isDigit then (parseDigits s 0).map (fun r => (.num (r.1 : Int), r.2))
    else none

/-- Parse the members of a flat object, positioned at the start of a key;
consumes the closing brace.  Fuelled to make termination evident. -/
def parsePairs : Nat → List Char → Option (List (List Char × JsonPrim) × List Char)
  | 0, _ => none
  | fuel + 1, s =>
    match skipWs s with
    | '"' :: r0 => do
      let (key, r1) ← parseStrBody r0
      match skipWs r1 with
      | ':' :: r2 => do
        let (v, r3) ← parsePrim (skipWs r2)
        match skipWs r3 with
        | ',' :: r4 => do
          let (ps, r5) ← parsePairs fuel r4
          some ((key, v) :: ps, r5)
        | d :: r4 => if d = rbrace then some ([(key, v)], r4) else none
        | [] => none
      | _ => none
    | _ => none

/-- Parse a complete flat JSON object, requiring the whole input consumed. -/
def jsonParseObj (s : List Char) : Option (List (List Char × JsonPrim)) :=
  match skipWs s with
  | c :: r0 =>
    if c = lbrace then
      match skipWs r0 with
      | d :: r1 =>
        if d = rbrace then
          if skipWs r1 = [] then some [] else none
        else do
          let (ps, r2) ← parsePairs (s.length + 1) (d :: r1)
          if skipWs r2 = [] then some ps else none
      | [] => none
    else none
  | [] => none

/-- Last binding of a key, as JS object literals keep the last duplicate. -/
def lookupLast (key : List Char) (ps : List (List Char × JsonPrim)) : Option JsonPrim :=
  (ps.reverse.find? (fun kv => kv.1 = key)).map (·.2)

/-- JS truthiness of a primitive, as `if (data.completed)` tests it. -/
def primTruthy : JsonPrim → Bool
  | .str s => !s.isEmpty
  | .bool b => b
  | .null => false
  | .num n => n ≠ 0

/-- The concrete instance of `ParseFn` used to run the decoder on protocol
inputs: parse the flat object and read off the `chunk` member and the
truthiness of the `completed` member. -/
def jsonFrameParse (s : List Char) : Option Frame := do
  let ps ← jsonParseObj s
  let chunk ← match lookupLast ['c', 'h', 'u', 'n', 'k'] ps with
    | some (.str c) => some (some c)
    | some _ => none
    | none => some none
  let completed := match lookupLast ['c', 'o', 'm', 'p', 'l', 'e', 't', 'e', 'd'] ps with
    | some v => primTruthy v
    | none => false
  some ⟨chunk, completed⟩

/-! ### Client construction (lines 18-36) -/

/-- The `MoondreamVLConfig` interface: both fields optional. -/
structure MoondreamVLConfig where
  apiKey : Option String
  endpoint : Option String

/-- Line 22. -/
def DEFAULT_ENDPOINT : String := "https://api.moondream.ai/v1"

/-- JS `x || d` on an optional string: the default is taken when the field is
absent or the string is empty (both are falsy). -/
def jsOrElse (x : Option String) (d : String) : String :=
  match x with
  | some s => if s = "" then d else s
  | none => d

/-- The private state of a constructed `vl` client. -/
structure VlClient where
  apiKey : String
  endpoint : String
deriving DecidableEq

/-- The `vl` constructor (lines 28-36): resolve the two fields with `|| `
defaults, then throw when the key is empty while the endpoint is the default
cloud endpoint. -/
def vlConstructor (config : MoondreamVLConfig) : Except String VlClient :=
  let apiKey := jsOrElse config.apiKey ""
  let endpoint := jsOrElse config.endpoint DEFAULT_ENDPOINT
  if apiKey = "" ∧ endpoint = DEFAULT_ENDPOINT then
    .error "An apiKey is required for cloud inference. "
  else
    .ok ⟨apiKey, endpoint⟩

/-! ### Image normalisation (lines 38-68) -/

/-- An already-encoded image, identified by its `imageUrl` field. -/
structure Base64EncodedImage where
  imageUrl : String
deriving DecidableEq

/-- The argument of `encodeImage`: a raw byte buffer, or a value carrying an
`imageUrl` field (the `'imageUrl' in image` test on line 41). -/
inductive ImageInput where
  | buffer (bytes : List Nat)
  | encoded (image : Base64EncodedImage)

/-- The pixel dimensions of a decoded raster image. -/
structure Bitmap where
  width : Nat
  height : Nat

/-- A decoded Jimp image; `bitmap` may be absent, as the optional chaining
`jimpImage.bitmap?.width` on lines 49-50 anticipates. -/
structure JimpImage where
  bitmap : Option Bitmap

/-- The external Jimp codec, kept abstract: decoding from bytes
(`Jimp.read`), and quality-controlled JPEG re-encoding
(`quality(q)` followed by `getBufferAsync('image/jpeg')`). -/
structure JimpCodec where
  read : List Nat → Except String JimpImage
  getBufferJpeg : JimpImage → Nat → Except String (List Nat)

/-- JS falsiness of `bitmap?.width`-style values: `undefined` or `0`. -/
def natFalsy : Option Nat → Bool
  | none => true
  | some n => n = 0

/-- The base64 alphabet. -/
def b64Char (n : Nat) : Char :=
  "ABCDEFGHIJKLMNOPQRSTUVWXYZabcdefghijklmnopqrstuvwxyz0123456789+/".toList.getD n 'A'

/-- Model of `Buffer.prototype.toString('base64')` (RFC 4648 with padding). -/
def base64Encode : List Nat → List Char
  | [] => []
  | [a] => [b64Char (a / 4), b64Char (a % 4 * 16), '=', '=']
  | [a, b] => [b64Char (a / 4), b64Char (a % 4 * 16 + b / 16), b64Char (b % 16 * 4), '=']
  | a :: b :: c :: rest =>
    b64Char (a / 4) :: b64Char (a % 4 * 16 + b / 16) :: b64Char (b % 16 * 4 + c / 64)
      :: b64Char (c % 64) :: base64Encode rest

/-- `encodeImage` (lines 38-68): pass through an already-encoded value;
otherwise decode, check the dimensions, re-encode as JPEG at quality 95 and
wrap the base64 text as a data URI.  Every failure inside the `try` block is
rethrown wrapped in the fixed message prefix (lines 63-67). -/
def encodeImage (codec : JimpCodec) : ImageInput → Except String Base64EncodedImage
  | .encoded image => .ok image
  | .buffer bytes =>
    match codec.read bytes with
    | .error e => .error ("Failed to convert image to JPEG: " ++ e)
    | .ok jimpImage =>
      let width := jimpImage.bitmap.map Bitmap.width
      let height := jimpImage.bitmap.map Bitmap.height
      if natFalsy width || natFalsy height then
        .error ("Failed to convert image to JPEG: " ++ "Unable to get image dimensions")
      else
        match codec.getBufferJpeg jimpImage 95 with
        | .error e => .error ("Failed to convert image to JPEG: " ++ e)
        | .ok buffer =>
          .ok ⟨"data:image/jpeg;base64," ++ String.mk (base64Encode buffer)⟩

/-! ### Response shaping in `query` (lines 208-218) -/

/-- The parsed body of a non-streaming `/query` response, as the shaping code
reads it: the `answer` value and the `reasoning` member, which may be absent
(`none`) or present with a string value. -/
structure QueryServiceResponse where
  answer : String
  reasoning : Option String

/-- The non-streaming `QueryOutput` value. -/
structure QueryOutput where
  answer : String
  reasoning : Option String
deriving DecidableEq

/-- JS truthiness of `response.reasoning`: a present, non-empty string. -/
def strTruthy : Option String → Bool
  | none => false
  | some s => !(s = "")

/-- Lines 214-218: build `{ answer }` and attach `reasoning` only when
`if (response.reasoning)` finds it truthy. -/
def queryShapeResult (response : QueryServiceResponse) : QueryOutput :=
  if strTruthy response.reasoning then
    { answer := response.answer, reasoning := response.reasoning }
  else
    { answer := response.answer, reasoning := none }

/-! ### Facts about `splitNl` -/

theorem splitNl_ne_nil (s : List Char) : splitNl s ≠ [] := by
  cases s with
  | nil => simp [splitNl]
  | cons c cs =>
    by_cases hc : c = '\n'
    · simp [splitNl, hc]
    · simp only [splitNl, if_neg hc]
      cases h : splitNl cs <;> simp

theorem nl_not_mem_splitNl {s l : List Char} (hl : l ∈ splitNl s) : '\n' ∉ l := by
  induction s generalizing l with
  | nil =>
    simp [splitNl] at hl
    simp [hl]
  | cons c cs ih =>
    by_cases hc : c = '\n'
    · simp only [splitNl, if_pos hc, List.mem_cons] at hl
      rcases hl with h | h
      · simp [h]
      · exact ih h
    · simp only [splitNl, if_neg hc] at hl
      cases hm : splitNl cs with
      | nil => exact absurd hm (splitNl_ne_nil cs)
      | cons m ms =>
        rw [hm] at hl
        simp only [List.mem_cons] at hl
        rcases hl with h | h
        · subst h
          intro hmem
          rcases List.mem_cons.1 hmem with h | h
          · exact hc h.symm
          · exact ih (hm ▸ List.mem_cons_self m ms) h
        · exact ih (hm ▸ List.mem_cons_of_mem m h)

theorem splitNl_single {s : List Char} (h : '\n' ∉ s) : splitNl s = [s] := by
  induction s with
  | nil => rfl
  | cons c cs ih =>
    have hc : ¬c = '\n' := fun hc => h (hc ▸ List.mem_cons_self c cs)
    have hcs : '\n' ∉ cs := fun hm => h (List.mem_cons_of_mem c hm)
    simp only [splitNl, if_neg hc, ih hcs]

theorem getLastD_default_irrel {α : Type} {l : List α} (h : l ≠ []) (a b : α) :
    l.getLastD a = l.getLastD b := by
  rw [List.getLastD_eq_getLast?, List.getLastD_eq_getLast?]
  cases hE : l.getLast? with
  | none => exact absurd (List.getLast?_eq_none_iff.1 hE) h
  | some x => rfl

theorem getLastD_append_right {α : Type} (D : List α) {E : List α} (h : E ≠ []) (d : α) :
    (D ++ E).getLastD d = E.getLastD d := by
  rw [List.getLastD_eq_getLast?, List.getLastD_eq_getLast?, List.getLast?_append]
  cases hE : E.getLast? with
  | none => exact absurd (List.getLast?_eq_none_iff.1 hE) h
  | some x => rfl

theorem getLastD_mem {α : Type} {l : List α} (h : l ≠ []) (d : α) : l.getLastD d ∈ l := by
  cases l with
  | nil => exact absurd rfl h
  | cons x xs =>
    rw [List.getLastD_eq_getLast?, List.getLast?_eq_getLast (x :: xs) (by simp)]
    exact List.getLast_mem _

theorem nl_not_mem_lastSeg (s : List Char) : '\n' ∉ (splitNl s).getLastD [] :=
  nl_not_mem_splitNl (getLastD_mem (splitNl_ne_nil s) [])

theorem splitNl_cons_nl (cs : List Char) : splitNl ('\n' :: cs) = [] :: splitNl cs := by
  simp [splitNl]

theorem splitNl_cons_of_ne {c : Char} (hc : c ≠ '\n') {cs m : List Char}
    {ms : List (List Char)} (hm : splitNl cs = m :: ms) :
    splitNl (c :: cs) = (c :: m) :: ms := by
  simp [splitNl, hc, hm]

theorem splitNl_append (x y : List Char) :
    splitNl (x ++ y) = (splitNl x).dropLast ++ splitNl ((splitNl x).getLastD [] ++ y) := by
  induction x with
  | nil => simp [splitNl]
  | cons c cs ih =>
    rw [List.cons_append]
    by_cases hc : c = '\n'
    · subst hc
      rw [splitNl_cons_nl, splitNl_cons_nl, ih]
      cases hm : splitNl cs with
      | nil => exact absurd hm (splitNl_ne_nil cs)
      | cons m ms =>
        simp only [List.dropLast_cons_of_ne_nil (List.cons_ne_nil m ms), List.getLastD_cons,
          List.cons_append]
    · cases hm : splitNl cs with
      | nil => exact absurd hm (splitNl_ne_nil cs)
      | cons m ms =>
        rw [hm] at ih
        rw [splitNl_cons_of_ne hc hm]
        cases ms with
        | nil =>
          simp only [List.dropLast_single, List.getLastD_cons, List.getLastD_nil,
            List.nil_append, List.cons_append] at ih ⊢
          cases hn : splitNl (m ++ y) with
          | nil => exact absurd hn (splitNl_ne_nil _)
          | cons n ns =>
            rw [splitNl_cons_of_ne hc (ih.trans hn), splitNl_cons_of_ne hc hn]
        | cons m2 ms2 =>
          simp only [List.dropLast_cons_of_ne_nil (List.cons_ne_nil m2 ms2),
            List.getLastD_cons, List.cons_append] at ih ⊢
          rw [splitNl_cons_of_ne hc ih]

/-! ### Composition of line processing -/

/-- Sequencing of two line batches: termination in the first wins. -/
def stepSeq : StepRes → StepRes → StepRes
  | .term fs o, _ => .term fs o
  | .next fs, .next fs2 => .next (fs ++ fs2)
  | .next fs, .term fs2 o => .term (fs ++ fs2) o

theorem processLines_append (p : ParseFn) (L1 L2 : List (List Char)) :
    processLines p (L1 ++ L2) = stepSeq (processLines p L1) (processLines p L2) := by
  induction L1 with
  | nil =>
    rw [List.nil_append]
    cases processLines p L2 with
    | next fs => simp [processLines, stepSeq]
    | term fs o => simp [processLines, stepSeq]
  | cons l ls ih =>
    rw [List.cons_append]
    by_cases hp : dataTag.isPrefixOf l
    · simp only [processLines, hp, if_true]
      cases hpar : p (l.drop 6) with
      | none => simp [stepSeq]
      | some data =>
        by_cases hcom : data.completed
        · simp [hcom, stepSeq]
        · simp only [hcom, if_false, Bool.false_eq_true]
          rw [ih]
          cases processLines p ls with
          | next fs =>
            cases processLines p L2 with
            | next fs2 => simp [stepSeq, List.append_assoc]
            | term fs2 o => simp [stepSeq, List.append_assoc]
          | term fs o => simp [stepSeq]
    · simp only [processLines, hp, Bool.false_eq_true, if_false]
      rw [ih]

/-- Merging two adjacent chunks of the stream does not change the decoder
behaviour: the heart of chunking invariance. -/
theorem streamLoop_merge (p : ParseFn) (a b : List Char) (rest : List (List Char))
    (buf : List Char) :
    streamLoop p ((a ++ b) :: rest) buf = streamLoop p (a :: b :: rest) buf := by
  have hEne : splitNl ((splitNl (buf ++ a)).getLastD [] ++ b) ≠ [] := splitNl_ne_nil _
  simp only [streamLoop]
  rw [← List.append_assoc, splitNl_append (buf ++ a) b]
  rw [List.dropLast_append_of_ne_nil _ hEne]
  rw [getLastD_append_right _ hEne]
  rw [processLines_append]
  cases h1 : processLines p (splitNl (buf ++ a)).dropLast with
  | term fs o => simp [stepSeq]
  | next fs =>
    cases h2 : processLines p (splitNl ((splitNl (buf ++ a)).getLastD [] ++ b)).dropLast with
    | term fs2 o => simp [stepSeq]
    | next fs2 => simp [stepSeq, List.append_assoc]

/-- Any chunking of the text processes like the single chunk holding all of
it, as long as the accumulator holds no newline (true of every reachable
accumulator, which is always a segment produced by splitNl). -/
theorem streamLoop_collapse (p : ParseFn) (ss : List (List Char)) :
    ∀ buf : List Char, '\n' ∉ buf → streamLoop p ss buf = streamLoop p [ss.flatten] buf := by
  induction ss with
  | nil =>
    intro buf hb
    simp only [List.flatten_nil, streamLoop, List.append_nil, splitNl_single hb,
      List.dropLast_single, processLines, List.getLastD_cons, List.getLastD_nil,
      List.nil_append]
  | cons a ss ih =>
    intro buf hb
    rw [List.flatten_cons, streamLoop_merge]
    simp only [streamLoop]
    cases h1 : processLines p (splitNl (buf ++ a)).dropLast with
    | term fs o => rfl
    | next fs =>
      rw [ih _ (nl_not_mem_lastSeg (buf ++ a))]
      simp only [streamLoop]

/-- Chunking invariance at the text level: two chunk lists carrying the same
text decode identically. -/
theorem streamResponseText_chunking (p : ParseFn) (ss tt : List (List Char))
    (h : ss.flatten = tt.flatten) : streamResponseText p ss = streamResponseText p tt := by
  unfold streamResponseText
  rw [streamLoop_collapse p ss [] (by simp), streamLoop_collapse p tt [] (by simp), h]

/-! ### UTF-8 round trip -/

/-- Decoding inverts encoding, one character at a time. -/
theorem utf8Run_encodeChar (c : Char) (t : List Nat) :
    utf8Run utf8Ground (utf8EncodeChar c ++ t) = c :: utf8Run utf8Ground t := by
  have hv : c.toNat < 55296 ∨ (57343 < c.toNat ∧ c.toNat < 1114112) := c.valid
  have hofn : Char.ofNat c.toNat = c := Char.ofNat_toNat c
  by_cases h80 : c.toNat < 0x80
  · rw [show utf8EncodeChar c = [c.toNat] from by simp [utf8EncodeChar, h80]]
    rw [List.cons_append, List.nil_append, utf8Run]
    rw [show utf8Step utf8Ground c.toNat = ([c], utf8Ground) from by
      simp only [utf8Step, utf8Ground, utf8Lead]
      rw [if_pos (by trivial), if_pos h80, hofn]]
    rfl
  · by_cases h800 : c.toNat < 0x800
    · rw [show utf8EncodeChar c = [0xC0 + c.toNat / 64, 0x80 + c.toNat % 64] from by
        simp [utf8EncodeChar, h80, h800]]
      simp only [List.cons_append, List.nil_append]
      rw [utf8Run]
      rw [show utf8Step utf8Ground (0xC0 + c.toNat / 64)
          = ([], ⟨1, 0xC0 + c.toNat / 64 - 0xC0, 0x80, 0xBF⟩) from by
        simp only [utf8Step, utf8Ground, utf8Lead]
        rw [if_pos (by trivial), if_neg (by omega), if_neg (by omega), if_pos (by omega)]]
      rw [List.nil_append, utf8Run]
      rw [show utf8Step ⟨1, 0xC0 + c.toNat / 64 - 0xC0, 0x80, 0xBF⟩ (0x80 + c.toNat % 64)
          = ([c], utf8Ground) from by
        simp only [utf8Step]
        rw [if_neg (by omega), if_pos ⟨by omega, by omega⟩, if_pos (by trivial)]
        rw [show (0xC0 + c.toNat / 64 - 0xC0) * 64 + (0x80 + c.toNat % 64 - 0x80) = c.toNat from by
          omega, hofn]]
      rfl
    · by_cases h10000 : c.toNat < 0x10000
      · rw [show utf8EncodeChar c
            = [0xE0 + c.toNat / 4096, 0x80 + c.toNat / 64 % 64, 0x80 + c.toNat % 64] from by
          simp [utf8EncodeChar, h80, h800, h10000]]
        simp only [List.cons_append, List.nil_append]
        rw [utf8Run]
        rw [show utf8Step utf8Ground (0xE0 + c.toNat / 4096)
            = ([], ⟨2, 0xE0 + c.toNat / 4096 - 0xE0,
                if 0xE0 + c.toNat / 4096 = 0xE0 then 0xA0 else 0x80,
                if 0xE0 + c.toNat / 4096 = 0xED then 0x9F else 0xBF⟩) from by
          simp only [utf8Step, utf8Ground, utf8Lead]
          rw [if_pos (by trivial), if_neg (by omega), if_neg (by omega), if_neg (by omega),
            if_pos (by omega)]]
        rw [List.nil_append, utf8Run]
        rw [show utf8Step ⟨2, 0xE0 + c.toNat / 4096 - 0xE0,
                if 0xE0 + c.toNat / 4096 = 0xE0 then 0xA0 else 0x80,
                if 0xE0 + c.toNat / 4096 = 0xED then 0x9F else 0xBF⟩ (0x80 + c.toNat / 64 % 64)
            = ([], ⟨1, (0xE0 + c.toNat / 4096 - 0xE0) * 64 + (0x80 + c.toNat / 64 % 64 - 0x80),
                0x80, 0xBF⟩) from by
          simp only [utf8Step]
          rw [if_neg (by omega), if_pos ⟨by split <;> omega, by split <;> omega⟩,
            if_neg (by omega)]]
        rw [List.nil_append, utf8Run]
        rw [show utf8Step ⟨1, (0xE0 + c.toNat / 4096 - 0xE0) * 64 + (0x80 + c.toNat / 64 % 64 - 0x80),
                0x80, 0xBF⟩ (0x80 + c.toNat % 64)
            = ([c], utf8Ground) from by
          simp only [utf8Step]
          rw [if_neg (by omega), if_pos ⟨by omega, by omega⟩, if_pos (by trivial)]
          rw [show ((0xE0 + c.toNat / 4096 - 0xE0) * 64 + (0x80 + c.toNat / 64 % 64 - 0x80)) * 64
              + (0x80 + c.toNat % 64 - 0x80) = c.toNat from by omega, hofn]]
        rfl
      · rw [show utf8EncodeChar c
            = [0xF0 + c.toNat / 262144, 0x80 + c.toNat / 4096 % 64, 0x80 + c.toNat / 64 % 64,
               0x80 + c.toNat % 64] from by
          simp [utf8EncodeChar, h80, h800, h10000]]
        simp only [List.cons_append, List.nil_append]
        rw [utf8Run]
        rw [show utf8Step utf8Ground (0xF0 + c.toNat / 262144)
            = ([], ⟨3, 0xF0 + c.toNat / 262144 - 0xF0,
                if 0xF0 + c.toNat / 262144 = 0xF0 then 0x90 else 0x80,
                if 0xF0 + c.toNat / 262144 = 0xF4 then 0x8F else 0xBF⟩) from by
          simp only [utf8Step, utf8Ground, utf8Lead]
          rw [if_pos (by trivial), if_neg (by omega), if_neg (by omega), if_neg (by omega),
            if_neg (by omega), if_pos (by omega)]]
        rw [List.nil_append, utf8Run]
        rw [show utf8Step ⟨3, 0xF0 + c.toNat / 262144 - 0xF0,
                if 0xF0 + c.toNat / 262144 = 0xF0 then 0x90 else 0x80,
                if 0xF0 + c.toNat / 262144 = 0xF4 then 0x8F else 0xBF⟩ (0x80 + c.toNat / 4096 % 64)
            = ([], ⟨2, (0xF0 + c.toNat / 262144 - 0xF0) * 64 + (0x80 + c.toNat / 4096 % 64 - 0x80),
                0x80, 0xBF⟩) from by
          simp only [utf8Step]
          rw [if_neg (by omega), if_pos ⟨by split <;> omega, by split <;> omega⟩,
            if_neg (by omega)]]
        rw [List.nil_append, utf8Run]
        rw [show utf8Step ⟨2, (0xF0 + c.toNat / 262144 - 0xF0) * 64 + (0x80 + c.toNat / 4096 % 64 - 0x80),
                0x80, 0xBF⟩ (0x80 + c.toNat / 64 % 64)
            = ([], ⟨1, ((0xF0 + c.toNat / 262144 - 0xF0) * 64 + (0x80 + c.toNat / 4096 % 64 - 0x80)) * 64
                + (0x80 + c.toNat / 64 % 64 - 0x80), 0x80, 0xBF⟩) from by
          simp only [utf8Step]
          rw [if_neg (by omega), if_pos ⟨by omega, by omega⟩, if_neg (by omega)]]
        rw [List.nil_append, utf8Run]
        rw [show utf8Step ⟨1, ((0xF0 + c.toNat / 262144 - 0xF0) * 64 + (0x80 + c.toNat / 4096 % 64 - 0x80)) * 64
                + (0x80 + c.toNat / 64 % 64 - 0x80), 0x80, 0xBF⟩ (0x80 + c.toNat % 64)
            = ([c], utf8Ground) from by
          simp only [utf8Step]
          rw [if_neg (by omega), if_pos ⟨by omega, by omega⟩, if_pos (by trivial)]
          rw [show (((0xF0 + c.toNat / 262144 - 0xF0) * 64 + (0x80 + c.toNat / 4096 % 64 - 0x80)) * 64
              + (0x80 + c.toNat / 64 % 64 - 0x80)) * 64 + (0x80 + c.toNat % 64 - 0x80) = c.toNat from by
            omega, hofn]]
        rfl

theorem utf8Decode_encodeStr (s : List Char) (t : List Nat) :
    utf8Decode (utf8EncodeStr s ++ t) = s ++ utf8Decode t := by
  unfold utf8Decode
  induction s with
  | nil => simp [utf8EncodeStr]
  | cons c cs ih =>
    rw [show utf8EncodeStr (c :: cs) = utf8EncodeChar c ++ utf8EncodeStr cs from by
      simp [utf8EncodeStr]]
    rw [List.append_assoc, utf8Run_encodeChar, ih, ← List.cons_append]

theorem utf8Decode_nil : utf8Decode [] = [] := rfl

theorem utf8Decode_encodeStr_nil (s : List Char) : utf8Decode (utf8EncodeStr s) = s := by
  have h := utf8Decode_encodeStr s []
  rw [List.append_nil] at h
  rw [h, utf8Decode_nil, List.append_nil]

/-! ## The claims -/

/-- The example line of the spec, `data: JSON-object with chunk ab` plus a
terminating newline. -/
def abLine : List Char := "data: \x7b\"chunk\":\"ab\"\x7d\n".toList

/-- The same line with the fragment text replaced by the two-byte character
`é`, encoded to wire bytes. -/
def eAccentBytes : List Nat := utf8EncodeStr "data: \x7b\"chunk\":\"é\"\x7d\n".toList

/-- C1 is false as stated: the decoder converts each byte chunk to text
separately (`chunk.toString()`), so a partition that splits the two UTF-8
bytes of `é` across chunks decodes them to two U+FFFD replacement characters
and yields a different fragment than the unsplit stream, even though both
partitions concatenate to the same bytes. -/
theorem streamResponse_not_byte_partition_invariant :
    (eAccentBytes.map (fun b => [b])).flatten = ([eAccentBytes] : List (List Nat)).flatten ∧
    streamResponse jsonFrameParse [eAccentBytes]
      ≠ streamResponse jsonFrameParse (eAccentBytes.map (fun b => [b])) :=
  ⟨by decide, by decide⟩

/-- C1 (amended): for every two ways of partitioning the byte stream into
chunks **whose boundaries fall on character boundaries** — partitions given
by lists of text chunks that concatenate to the same text — the decoder
produces the same fragments and the same termination outcome, for every
parse oracle. -/
theorem streamResponse_chunk_boundary_invariant (p : ParseFn) (ss tt : List (List Char))
    (h : ss.flatten = tt.flatten) :
    streamResponse p (ss.map utf8EncodeStr) = streamResponse p (tt.map utf8EncodeStr) := by
  have hmap : ∀ u : List (List Char), u.map (utf8Decode ∘ utf8EncodeStr) = u := fun u =>
    (@List.map_congr_left _ u _ (utf8Decode ∘ utf8EncodeStr) id
      (fun a _ => utf8Decode_encodeStr_nil a)).trans (List.map_id u)
  unfold streamResponse
  rw [List.map_map, List.map_map, hmap, hmap]
  exact streamResponseText_chunking p ss tt h

/-- The example of C1: the `ab` line fed as one chunk or byte-by-byte (its
characters are ASCII, so single bytes are character-aligned chunks) yields
the same result, namely the single fragment `ab` and a clean end. -/
theorem streamResponse_chunk_boundary_invariant_witness :
    ([abLine] : List (List Char)).flatten = (abLine.map (fun c => [c])).flatten ∧
    streamResponse jsonFrameParse ([abLine].map utf8EncodeStr)
      = streamResponse jsonFrameParse ((abLine.map (fun c => [c])).map utf8EncodeStr) ∧
    streamResponse jsonFrameParse ([abLine].map utf8EncodeStr)
      = ⟨[['a', 'b']], Outcome.eos⟩ :=
  ⟨by decide, streamResponse_chunk_boundary_invariant jsonFrameParse _ _ (by decide), by decide⟩

/-- A `data: ` line whose frame parses with a truthy completed flag
terminates the line loop at once, after yielding its fragment (if any). -/
theorem processLines_cons_completed (p : ParseFn) {l : List Char} {f : Frame}
    (rest : List (List Char)) (hpre : dataTag.isPrefixOf l)
    (hparse : p (l.drop 6) = some f) (hcom : f.completed = true) :
    processLines p (l :: rest) = .term (frameFrags f) .completed := by
  simp [processLines, hpre, hparse, hcom]

/-- A `data: ` line whose text after the marker fails to parse throws. -/
theorem processLines_cons_error (p : ParseFn) {l : List Char}
    (rest : List (List Char)) (hpre : dataTag.isPrefixOf l)
    (hparse : p (l.drop 6) = none) :
    processLines p (l :: rest) = .term [] .parseError := by
  simp [processLines, hpre, hparse]

/-- C2: once the decoder processes a complete line whose frame has a truthy
completed flag, the run terminates via the completed return; its fragments
are those of the earlier lines of the batch followed by that frame's own
fragment, and nothing from the later lines of the batch (`L2`, `last`) nor
from any later chunk (`crest`) is emitted.  The first conjunct states this
from any reachable decoder state (any accumulator `buf`), so it applies
wherever in the stream the completed frame arrives; the second specialises
to a full run of `streamResponse`. -/
theorem streamResponse_completed_stops (p : ParseFn) (c : List Nat)
    (crest : List (List Nat)) (L1 L2 : List (List Char)) (l last : List Char)
    (f : Frame) (fs : List (List Char))
    (hpre : dataTag.isPrefixOf l)
    (hparse : p (l.drop 6) = some f)
    (hcom : f.completed = true)
    (hL1 : processLines p L1 = .next fs) :
    (∀ buf : List Char, splitNl (buf ++ utf8Decode c) = (L1 ++ l :: L2) ++ [last] →
        streamLoop p (utf8Decode c :: crest.map utf8Decode) buf
          = ⟨fs ++ frameFrags f, .completed⟩)
    ∧ (splitNl (utf8Decode c) = (L1 ++ l :: L2) ++ [last] →
        streamResponse p (c :: crest) = ⟨fs ++ frameFrags f, .completed⟩) := by
  have main : ∀ buf : List Char, splitNl (buf ++ utf8Decode c) = (L1 ++ l :: L2) ++ [last] →
      streamLoop p (utf8Decode c :: crest.map utf8Decode) buf
        = ⟨fs ++ frameFrags f, .completed⟩ := by
    intro buf hsplit
    simp only [streamLoop]
    rw [hsplit, List.dropLast_concat]
    rw [processLines_append, hL1, processLines_cons_completed p L2 hpre hparse hcom]
    simp [stepSeq]
  refine ⟨main, fun hsplit => ?_⟩
  unfold streamResponse streamResponseText
  rw [List.map_cons]
  exact main [] (by rw [List.nil_append, hsplit])

/-- C3: when the stream ends with an unterminated `data: ` line in the
accumulator whose frame carries a fragment, the flush emits that fragment as
the last element and the run ends cleanly — from any reachable state (first
conjunct) and for a full `streamResponse` run (second conjunct). -/
theorem streamResponse_flush_emits_trailing (p : ParseFn) (c : List Nat)
    (L : List (List Char)) (fs : List (List Char)) (b : List Char) (f : Frame) (x : List Char)
    (hL : processLines p L = .next fs)
    (hpre : dataTag.isPrefixOf b)
    (hparse : p (b.drop 6) = some f)
    (hchunk : f.chunk = some x) :
    (∀ buf : List Char, splitNl (buf ++ utf8Decode c) = L ++ [b] →
        streamLoop p [utf8Decode c] buf = ⟨fs ++ [x], .eos⟩)
    ∧ (splitNl (utf8Decode c) = L ++ [b] →
        streamResponse p [c] = ⟨fs ++ [x], .eos⟩) := by
  have hbne : b ≠ [] := by
    intro hb
    rw [hb] at hpre
    simp [dataTag, List.isPrefixOf] at hpre
  have main : ∀ buf : List Char, splitNl (buf ++ utf8Decode c) = L ++ [b] →
      streamLoop p [utf8Decode c] buf = ⟨fs ++ [x], .eos⟩ := by
    intro buf hsplit
    have hbn : '\n' ∉ b :=
      nl_not_mem_splitNl (hsplit ▸ List.mem_append_right L (List.mem_singleton.2 rfl))
    simp only [streamLoop]
    rw [hsplit, List.dropLast_concat, hL,
      getLastD_append_right L (List.cons_ne_nil b []) ([] : List Char)]
    simp only [List.getLastD_cons, List.getLastD_nil, finishFlush, if_neg hbne,
      splitNl_single hbn]
    rw [show flushLines p [b] = .next (frameFrags f) from by
      simp [flushLines, hpre, hparse]]
    simp [frameFrags, hchunk]
  refine ⟨main, fun hsplit => ?_⟩
  unfold streamResponse streamResponseText
  rw [List.map_cons, List.map_nil]
  exact main [] (by rw [List.nil_append, hsplit])

/-- C4: a complete `data: ` line whose remainder the parse rejects makes the
run terminate with the parse error; the fragments are exactly those of the
earlier lines of the batch, and neither the rest of the batch (`L2`, `last`)
nor any later chunk (`crest`) is processed — from any reachable state (first
conjunct) and for a full `streamResponse` run (second conjunct). -/
theorem streamResponse_parse_failure (p : ParseFn) (c : List Nat)
    (crest : List (List Nat)) (L1 L2 : List (List Char)) (l last : List Char)
    (fs : List (List Char))
    (hpre : dataTag.isPrefixOf l)
    (hparse : p (l.drop 6) = none)
    (hL1 : processLines p L1 = .next fs) :
    (∀ buf : List Char, splitNl (buf ++ utf8Decode c) = (L1 ++ l :: L2) ++ [last] →
        streamLoop p (utf8Decode c :: crest.map utf8Decode) buf = ⟨fs, .parseError⟩)
    ∧ (splitNl (utf8Decode c) = (L1 ++ l :: L2) ++ [last] →
        streamResponse p (c :: crest) = ⟨fs, .parseError⟩) := by
  have main : ∀ buf : List Char, splitNl (buf ++ utf8Decode c) = (L1 ++ l :: L2) ++ [last] →
      streamLoop p (utf8Decode c :: crest.map utf8Decode) buf = ⟨fs, .parseError⟩ := by
    intro buf hsplit
    simp only [streamLoop]
    rw [hsplit, List.dropLast_concat]
    rw [processLines_append, hL1, processLines_cons_error p L2 hpre hparse]
    simp [stepSeq]
  refine ⟨main, fun hsplit => ?_⟩
  unfold streamResponse streamResponseText
  rw [List.map_cons]
  exact main [] (by rw [List.nil_append, hsplit])

/-- C5: a line that does not start with `data: ` is dropped silently: the
line loop and the flush loop both ignore it and continue with the remaining
lines, and a stream ending in a non-prefixed residual line flushes to a
clean end with no extra fragment and no error — stated from any reachable
state and specialised to a full `streamResponse` run. -/
theorem streamResponse_drops_nonprotocol_lines :
    (∀ (p : ParseFn) (l : List Char) (rest : List (List Char)),
        ¬ dataTag.isPrefixOf l → processLines p (l :: rest) = processLines p rest)
    ∧ (∀ (p : ParseFn) (l : List Char) (rest : List (List Char)),
        ¬ dataTag.isPrefixOf l → flushLines p (l :: rest) = flushLines p rest)
    ∧ (∀ (p : ParseFn) (c : List Nat) (L : List (List Char)) (fs : List (List Char))
        (b : List Char), processLines p L = .next fs → ¬ dataTag.isPrefixOf b →
        (∀ buf : List Char, splitNl (buf ++ utf8Decode c) = L ++ [b] →
            streamLoop p [utf8Decode c] buf = ⟨fs, .eos⟩)
        ∧ (splitNl (utf8Decode c) = L ++ [b] → streamResponse p [c] = ⟨fs, .eos⟩)) := by
  refine ⟨?_, ?_, ?_⟩
  · intro p l rest hpre
    simp [processLines, hpre]
  · intro p l rest hpre
    simp [flushLines, hpre]
  · intro p c L fs b hL hpre
    have main : ∀ buf : List Char, splitNl (buf ++ utf8Decode c) = L ++ [b] →
        streamLoop p [utf8Decode c] buf = ⟨fs, .eos⟩ := by
      intro buf hsplit
      have hbn : '\n' ∉ b :=
        nl_not_mem_splitNl (hsplit ▸ List.mem_append_right L (List.mem_singleton.2 rfl))
      simp only [streamLoop]
      rw [hsplit, List.dropLast_concat, hL,
        getLastD_append_right L (List.cons_ne_nil b []) ([] : List Char)]
      simp only [List.getLastD_cons, List.getLastD_nil, finishFlush]
      by_cases hb : b = []
      · rw [if_pos hb]
        simp
      · rw [if_neg hb, splitNl_single hbn]
        rw [show flushLines p [b] = .next [] from by simp [flushLines, hpre]]
        simp
    refine ⟨main, fun hsplit => ?_⟩
    unfold streamResponse streamResponseText
    rw [List.map_cons, List.map_nil]
    exact main [] (by rw [List.nil_append, hsplit])

/-- C6: a `data: ` line whose frame parses but carries neither a fragment
nor a truthy completed flag is skipped: both loops behave exactly as they do
on the remaining lines, emitting nothing, raising nothing and not
terminating. -/
theorem streamResponse_skips_contentless_frames (p : ParseFn) (l : List Char)
    (f : Frame) (rest : List (List Char))
    (hpre : dataTag.isPrefixOf l) (hparse : p (l.drop 6) = some f)
    (hchunk : f.chunk = none) (hcom : f.completed = false) :
    processLines p (l :: rest) = processLines p rest
      ∧ flushLines p (l :: rest) = flushLines p rest := by
  constructor
  · simp only [processLines, hpre, if_true, hparse, hcom, Bool.false_eq_true, if_false]
    cases processLines p rest <;> simp [frameFrags, hchunk]
  · simp only [flushLines, hpre, if_true, hparse]
    cases flushLines p rest <;> simp [frameFrags, hchunk]

/-! Concrete wire inputs for the witnesses. -/

/-- A chunk holding a fragment-and-completed frame line, a noise line, and a
final newline. -/
def c2Chunk : List Nat :=
  utf8EncodeStr (String.toList "data: \x7b\"chunk\":\"ab\",\"completed\":true\x7d\nzz\n")

/-- A later chunk that must never be consumed. -/
def c2Later : List Nat := utf8EncodeStr (String.toList "data: \x7b\"chunk\":\"no\"\x7d\n")

theorem streamResponse_completed_stops_witness :
    streamResponse jsonFrameParse (c2Chunk :: [c2Later])
      = ⟨[['a', 'b']], Outcome.completed⟩ :=
  ((streamResponse_completed_stops jsonFrameParse c2Chunk [c2Later] [] [String.toList "zz"]
    (String.toList "data: \x7b\"chunk\":\"ab\",\"completed\":true\x7d") []
    ⟨some ['a', 'b'], true⟩ [] (by decide) (by decide) (by decide)
    (by decide)).2 (by decide)).trans (by decide)

/-- A chunk ending in an unterminated `data: ` line. -/
def c3Chunk : List Nat :=
  utf8EncodeStr (String.toList "data: \x7b\"chunk\":\"a\"\x7d\ndata: \x7b\"chunk\":\"z\"\x7d")

theorem streamResponse_flush_emits_trailing_witness :
    streamResponse jsonFrameParse [c3Chunk] = ⟨[['a'], ['z']], Outcome.eos⟩ :=
  ((streamResponse_flush_emits_trailing jsonFrameParse c3Chunk
    [String.toList "data: \x7b\"chunk\":\"a\"\x7d"] [['a']]
    (String.toList "data: \x7b\"chunk\":\"z\"\x7d") ⟨some ['z'], false⟩ ['z']
    (by decide) (by decide) (by decide) (by decide)).2 (by decide)).trans (by decide)

/-- A chunk with a good line, then a malformed `data: ` line, then another
line that must not be reached. -/
def c4Chunk : List Nat :=
  utf8EncodeStr
    (String.toList "data: \x7b\"chunk\":\"a\"\x7d\ndata: \x7bbad\ndata: \x7b\"chunk\":\"c\"\x7d\n")

theorem streamResponse_parse_failure_witness :
    streamResponse jsonFrameParse (c4Chunk :: [c2Later]) = ⟨[['a']], Outcome.parseError⟩ :=
  (streamResponse_parse_failure jsonFrameParse c4Chunk [c2Later]
    [String.toList "data: \x7b\"chunk\":\"a\"\x7d"]
    [String.toList "data: \x7b\"chunk\":\"c\"\x7d"] (String.toList "data: \x7bbad") []
    [['a']] (by decide) (by decide) (by decide)).2 (by decide)

/-- A stream with no protocol content at all. -/
def c5Chunk : List Nat := utf8EncodeStr (String.toList "noise\nmore")

theorem streamResponse_drops_nonprotocol_lines_witness :
    streamResponse jsonFrameParse [c5Chunk] = ⟨[], Outcome.eos⟩ :=
  (streamResponse_drops_nonprotocol_lines.2.2 jsonFrameParse c5Chunk
    [String.toList "noise"] [] (String.toList "more") (by decide) (by decide)).2 (by decide)

theorem streamResponse_skips_contentless_frames_witness :
    processLines jsonFrameParse
        (String.toList "data: \x7b\x7d" :: [String.toList "data: \x7b\"chunk\":\"q\"\x7d"])
      = processLines jsonFrameParse [String.toList "data: \x7b\"chunk\":\"q\"\x7d"]
    ∧ flushLines jsonFrameParse
        (String.toList "data: \x7b\x7d" :: [String.toList "data: \x7b\"chunk\":\"q\"\x7d"])
      = flushLines jsonFrameParse [String.toList "data: \x7b\"chunk\":\"q\"\x7d"] :=
  streamResponse_skips_contentless_frames jsonFrameParse (String.toList "data: \x7b\x7d")
    ⟨none, false⟩ [String.toList "data: \x7b\"chunk\":\"q\"\x7d"]
    (by decide) (by decide) (by decide) (by decide)

/-- C7 is false as stated at one point: the empty string is a non-default
endpoint value, yet passing it with no apiKey still throws, because the
`config.endpoint || DEFAULT_ENDPOINT` fallback treats the empty (falsy)
string as an omitted endpoint. -/
theorem vlConstructor_empty_endpoint_counterexample :
    ("" : String) ≠ DEFAULT_ENDPOINT ∧
    vlConstructor ⟨none, some ""⟩ = .error "An apiKey is required for cloud inference. " :=
  ⟨by decide, rfl⟩

/-- C7 (amended): with no apiKey (absent or empty) and the endpoint omitted,
passed as the default string, or passed as the empty string, construction
throws the configuration error; with no apiKey and any non-default,
non-empty endpoint it succeeds; with a non-empty apiKey it succeeds for
every endpoint. -/
theorem vlConstructor_spec :
    (∀ key ep : Option String, (key = none ∨ key = some "") →
        (ep = none ∨ ep = some DEFAULT_ENDPOINT ∨ ep = some "") →
        vlConstructor ⟨key, ep⟩ = .error "An apiKey is required for cloud inference. ")
    ∧ (∀ (key : Option String) (ep : String), (key = none ∨ key = some "") →
        ep ≠ DEFAULT_ENDPOINT → ep ≠ "" →
        vlConstructor ⟨key, some ep⟩ = .ok ⟨"", ep⟩)
    ∧ (∀ (k : String) (ep : Option String), k ≠ "" →
        vlConstructor ⟨some k, ep⟩ = .ok ⟨k, jsOrElse ep DEFAULT_ENDPOINT⟩) := by
  refine ⟨?_, ?_, ?_⟩
  · intro key ep hk he
    rcases hk with h | h <;> subst h <;>
      rcases he with h | h | h <;> subst h <;> simp [vlConstructor, jsOrElse]
  · intro key ep hk hne hnee
    rcases hk with h | h <;> subst h <;>
      simp [vlConstructor, jsOrElse, hne, hnee]
  · intro k ep hk
    simp [vlConstructor, jsOrElse, hk]

theorem vlConstructor_spec_witness :
    vlConstructor ⟨none, none⟩ = .error "An apiKey is required for cloud inference. " :=
  vlConstructor_spec.1 none none (Or.inl rfl) (Or.inl rfl)

/-- C8: `encodeImage` returns an already-encoded input unchanged, with no
re-encoding: the operation is the identity on such values, and in
particular idempotent. -/
theorem encodeImage_identity_on_encoded (codec : JimpCodec) (image : Base64EncodedImage) :
    encodeImage codec (.encoded image) = .ok image := rfl

/-- C9: on a raw buffer, when the codec decodes to an image with nonzero
width and height and re-encodes at quality 95, `encodeImage` returns the
JPEG data URI over the base64 of the re-encoded bytes; when the read fails,
a dimension is missing or zero, or the re-encode fails, it returns the
wrapped encoding error instead. -/
theorem encodeImage_buffer_spec (codec : JimpCodec) (bytes : List Nat) :
    (∀ (img : JimpImage) (bm : Bitmap) (buf : List Nat),
        codec.read bytes = .ok img → img.bitmap = some bm → bm.width ≠ 0 → bm.height ≠ 0 →
        codec.getBufferJpeg img 95 = .ok buf →
        encodeImage codec (.buffer bytes)
          = .ok ⟨"data:image/jpeg;base64," ++ String.mk (base64Encode buf)⟩)
    ∧ (∀ e, codec.read bytes = .error e →
        encodeImage codec (.buffer bytes) = .error ("Failed to convert image to JPEG: " ++ e))
    ∧ (∀ img, codec.read bytes = .ok img →
        (natFalsy (img.bitmap.map Bitmap.width) || natFalsy (img.bitmap.map Bitmap.height))
            = true →
        encodeImage codec (.buffer bytes)
          = .error ("Failed to convert image to JPEG: " ++ "Unable to get image dimensions"))
    ∧ (∀ img e, codec.read bytes = .ok img →
        (natFalsy (img.bitmap.map Bitmap.width) || natFalsy (img.bitmap.map Bitmap.height))
            = false →
        codec.getBufferJpeg img 95 = .error e →
        encodeImage codec (.buffer bytes) = .error ("Failed to convert image to JPEG: " ++ e)) := by
  refine ⟨?_, ?_, ?_, ?_⟩
  · intro img bm buf hread hbm hw hh henc
    simp [encodeImage, hread, hbm, henc, natFalsy, hw, hh]
  · intro e hread
    simp [encodeImage, hread]
  · intro img hread hfalsy
    simp [encodeImage, hread, hfalsy]
  · intro img e hread hfalsy henc
    simp [encodeImage, hread, hfalsy, henc]

/-- A toy codec for evaluating `encodeImage` on a concrete run. -/
def witnessCodec : JimpCodec :=
  ⟨fun _ => .ok ⟨some ⟨2, 3⟩⟩, fun _ _ => .ok [77, 77, 77]⟩

theorem encodeImage_buffer_spec_witness :
    encodeImage witnessCodec (.buffer [0])
      = .ok ⟨"data:image/jpeg;base64," ++ String.mk (base64Encode [77, 77, 77])⟩ :=
  (encodeImage_buffer_spec witnessCodec [0]).1 ⟨some ⟨2, 3⟩⟩ ⟨2, 3⟩ [77, 77, 77]
    rfl rfl (by decide) (by decide) rfl

/-- C10 is false as stated at one point: a response that does contain a
reasoning field, with the empty string as its value, yields an output with
no reasoning field, because `if (response.reasoning)` tests truthiness. -/
theorem query_reasoning_counterexample :
    (⟨"a", some ""⟩ : QueryServiceResponse).reasoning ≠ none ∧
    queryShapeResult ⟨"a", some ""⟩ = ⟨"a", none⟩ :=
  ⟨by decide, rfl⟩

/-- C10 (amended): whenever the parsed response contains a non-empty
reasoning field, the output carries that value alongside the answer; when
the field is absent or empty, the output has no reasoning field. -/
theorem query_reasoning_spec :
    (∀ (resp : QueryServiceResponse) (r : String), resp.reasoning = some r → r ≠ "" →
        queryShapeResult resp = ⟨resp.answer, some r⟩)
    ∧ (∀ resp : QueryServiceResponse, resp.reasoning = none ∨ resp.reasoning = some "" →
        queryShapeResult resp = ⟨resp.answer, none⟩) := by
  constructor
  · intro resp r hr hne
    simp [queryShapeResult, strTruthy, hr, hne]
  · intro resp h
    rcases h with h | h <;> simp [queryShapeResult, strTruthy, h]

theorem query_reasoning_spec_witness :
    queryShapeResult ⟨"a", some "why"⟩ = ⟨"a", some "why"⟩ :=
  query_reasoning_spec.1 ⟨"a", some "why"⟩ "why" rfl (by decide)

end Moondream
